import Mathlib

/-!
Verification of the Markdown serializer (`src/renderer.js`) of the
slate-md-serializer repository.

JavaScript strings are modelled as lists of characters (`JSStr`); the JS
value `undefined` that flows through the rule-dispatch machinery is
modelled with `Option`.  The external URL encoder (`encode` from
`./urls`, not part of the core) is a parameter `enc` of every definition
that needs it.  The module-level mutable `tableHeader` string is threaded
explicitly: each serializing function takes the current header state and
returns the updated one.
-/

/-- A JavaScript string, modelled as its list of characters. -/
abbrev JSStr := List Char

/-- Embed a Lean string literal as a `JSStr`. -/
def js (s : String) : JSStr := s.toList

/-- JS template-literal interpolation of a possibly-`undefined` string:
`undefined` is stringified as the literal text `undefined`. -/
def jsToString : Option JSStr → JSStr
  | none => js "undefined"
  | some s => s

/-- The dispatcher's `if (ret) return ret` check: a rule result that is
`undefined` or the empty string is falsy and counts as "no match". -/
def truthyResult : Option JSStr → Option JSStr
  | none => none
  | some s => if s = [] then none else some s

/-- JS `children.flatten().join("")` over the per-child results:
`undefined` entries are joined as the empty string. -/
def joinResults : List (Option JSStr) → JSStr
  | [] => []
  | r :: rest => r.getD [] ++ joinResults rest

/-- JS `s.replace(/c/g, rep)` for a single-character pattern `c`:
every occurrence of `c` is replaced by `rep`, in one left-to-right pass
(replacement text is not rescanned). -/
def jsReplaceChar (c : Char) (rep : JSStr) : JSStr → JSStr
  | [] => []
  | x :: xs => (if x = c then rep else [x]) ++ jsReplaceChar c rep xs

/-- Function `formatSoftBreak` (renderer.js line 21): replace each newline with
two spaces followed by a newline. -/
def formatSoftBreak (children : JSStr) : JSStr :=
  jsReplaceChar '\n' (js "  \n") children

/-- The plain-text escaping rule `RULES[0].serialize` (renderer.js lines
34-46): the chained global replaces, backslash first. -/
def escapeText (s : JSStr) : JSStr :=
  jsReplaceChar '%' (js "\\%")
    (jsReplaceChar ']' (js "\\]")
      (jsReplaceChar '[' (js "\\[")
        (jsReplaceChar '!' (js "\\!")
          (jsReplaceChar '@' (js "\\@")
            (jsReplaceChar '\\' (js "\\\\") s)))))

/-- Helper for `children.replace(/^/gm, "   ")`: insert three spaces
after every newline (the position right after a `\n` is a `^` match in
multiline mode, including one at the very end of the string). -/
def indentNewlines : JSStr → JSStr
  | [] => []
  | x :: xs =>
      if x = '\n' then '\n' :: (js "   " ++ indentNewlines xs)
      else x :: indentNewlines xs

/-- JS `children.replace(/^/gm, "   ")` (renderer.js line 97): three
spaces at the start of the string and after every newline. -/
def jsIndentLineStarts (s : JSStr) : JSStr := js "   " ++ indentNewlines s

/-- The JS `\s` character class, restricted to its ASCII members plus
the no-break space. -/
def isJsWhitespace (c : Char) : Bool :=
  c = ' ' || c = '\t' || c = '\n' || c = '\r' || c = '\x0b' || c = '\x0c' ||
    c = '\u00A0'

/-- JS `output.replace(/^\s+/g, "")` (renderer.js line 217): without the
`m` flag, `^` anchors only at position 0, so this strips exactly the
leading run of whitespace. -/
def jsTrimStart (s : JSStr) : JSStr := s.dropWhile isJsWhitespace

/-- JS `String.prototype.trim`: whitespace stripped from both ends
(used for link children, renderer.js line 148). -/
def jsTrim (s : JSStr) : JSStr :=
  ((jsTrimStart s).reverse.dropWhile isJsWhitespace).reverse

/-- State machine for `desc.replace(/\[(.*?)\]/g, "")`.  The first
argument is the buffered text since the pending unmatched `[`, when one
is open.  A `]` closes the pending group (the whole group is dropped); a
newline invalidates it (`.` does not match line terminators), so the
buffer is flushed as literal text.  When a pending `[` fails, no `[`
inside its buffer can start a match either, since a closing `]` before
the newline would already have closed the pending group. -/
def stripBracketsAux : Option JSStr → JSStr → JSStr
  | none, [] => []
  | none, c :: xs =>
      if c = '[' then stripBracketsAux (some [c]) xs
      else c :: stripBracketsAux none xs
  | some buf, [] => buf
  | some buf, c :: xs =>
      if c = ']' then stripBracketsAux none xs
      else if c = '\n' then buf ++ '\n' :: stripBracketsAux none xs
      else stripBracketsAux (some (buf ++ [c])) xs

/-- JS `desc.replace(/\[(.*?)\]/g, "")` (renderer.js line 15): remove
every lazily-matched bracket group. -/
def stripBracketGroups (s : JSStr) : JSStr := stripBracketsAux none s

/-- Function `formatLinkBar` (renderer.js lines 11-19).  The bracket-group strip
on the description happens inside the template. -/
def formatLinkBar (img url title desc domain : JSStr) : JSStr :=
  js "%%%\n" ++ (if img = [] then url else url ++ js "\n" ++ img) ++ js "\n" ++
    title ++ js "\n" ++ stripBracketGroups desc ++ js "\n" ++ domain ++
    js "\n%%%\n"

/-- The `data` mapping of a node, with one typed field per key the
renderer reads.  An absent key (JS `getIn` returning `undefined`) is
`none`.  `align` is only ever compared against string literals, so it is
kept as a Lean `String`; `checked` and `anonymous` are used only for
truthiness.  In the source an absent `description` on a `linkbar` would
throw (`undefined.replace`); that path is modelled by interpolation
instead and is exercised by no claim. -/
structure NData where
  align : Option String := none
  checked : Option Bool := none
  src : Option JSStr := none
  alt : Option JSStr := none
  href : Option JSStr := none
  username : Option JSStr := none
  anonymous : Option Bool := none
  image : Option JSStr := none
  url : Option JSStr := none
  title : Option JSStr := none
  description : Option JSStr := none
  domain : Option JSStr := none

/-- A leaf of a text node: raw text plus the stored list of mark types. -/
structure Leaf where
  text : JSStr
  marks : List String

mutual

/-- A document-tree node: the three kinds the renderer distinguishes
(`block`, `inline`, `text`). -/
inductive SNode where
  | block (type : String) (data : NData) (nodes : SNodeList)
  | inline (type : String) (data : NData) (nodes : SNodeList)
  | text (leaves : List Leaf)

/-- An ordered sequence of child nodes. -/
inductive SNodeList where
  | nil
  | cons (head : SNode) (tail : SNodeList)

end

/-- Build an `SNodeList` from a Lean list. -/
def SNodeList.ofList : List SNode → SNodeList
  | [] => .nil
  | n :: ns => .cons n (SNodeList.ofList ns)

/-- The result of `document.getParent(obj.key)`: either the document
itself (for a top-level node) or the parent node. -/
inductive Parent where
  | document
  | node (n : SNode)

/-- Field access `parent.type` as JS reads it: `undefined` for the document and for
text nodes. -/
def Parent.type : Parent → Option String
  | .document => none
  | .node (SNode.block t _ _) => some t
  | .node (SNode.inline t _ _) => some t
  | .node (SNode.text _) => none

/-- The mark rule `RULES[3].serialize` (renderer.js lines 159-175).  The
incoming accumulator can be JS `undefined` (`none`), which template
interpolation turns into the literal text `undefined`. -/
def markRuleSerialize (type : String) (children : Option JSStr) : Option JSStr :=
  match type with
  | "bold" => some (js "**" ++ jsToString children ++ js "**")
  | "italic" => some (js "*" ++ jsToString children ++ js "*")
  | "code" => some (js "`" ++ jsToString children ++ js "`")
  | "inserted" => some (js "__" ++ jsToString children ++ js "__")
  | "deleted" => some (js "~~" ++ jsToString children ++ js "~~")
  | _ => none

/-- The inline rule `RULES[2].serialize` (renderer.js lines 142-157).
For a `mention` with an empty or absent `username`, JS returns the falsy
`username` itself (the empty string). -/
def inlineRuleSerialize (enc : JSStr → JSStr) (type : String) (data : NData)
    (children : JSStr) : Option JSStr :=
  match type with
  | "link" =>
      some (js "[" ++ jsTrim children ++ js "](" ++ enc (data.href.getD []) ++
        js ")")
  | "code-line" => some (js "`" ++ children ++ js "`")
  | "mention" =>
      let username := data.username.getD []
      if username = [] then some []
      else
        some ((if data.anonymous = some true then js "!" else js "@") ++
          username ++ js " ")
  | _ => none

/-- The block rule `RULES[1].serialize` (renderer.js lines 47-141), with
`document.getParent(obj.key)` already resolved to `parent` and the
module-level `tableHeader` threaded as the last argument; the returned
pair is (rule result, updated `tableHeader`). -/
def blockRuleSerialize (enc : JSStr → JSStr) (type : String) (data : NData)
    (parent : Parent) (children : JSStr) (tableHeader : JSStr) :
    Option JSStr × JSStr :=
  match type with
  | "table" => (some children, [])
  | "table-head" =>
      let marker :=
        match data.align with
        | some "left" => js "|:--- "
        | some "center" => js "|:---:"
        | some "right" => js "| ---:"
        | _ => js "| --- "
      (some (js "| " ++ children ++ js " "), tableHeader ++ marker)
  | "table-row" =>
      let output := if tableHeader = [] then [] else tableHeader ++ js "|\n"
      (some (children ++ js "|\n" ++ output), [])
  | "table-cell" => (some (js "| " ++ children ++ js " "), tableHeader)
  | "paragraph" =>
      if Parent.type parent = some "list-item" then
        (some (formatSoftBreak children), tableHeader)
      else
        (some (js "\n" ++ formatSoftBreak children ++ js "\n"), tableHeader)
  | "code" =>
      (some (js "```\n" ++ children ++ js "\n```\n"), tableHeader)
  | "block-quote" => (some (js "> " ++ children ++ js "\n"), tableHeader)
  | "todo-list" | "bulleted-list" | "ordered-list" =>
      match parent with
      | .document => (some (js "\n" ++ children), tableHeader)
      | .node _ => (some (js "\n" ++ jsIndentLineStarts children), tableHeader)
  | "list-item" =>
      match Parent.type parent with
      | some "ordered-list" =>
          (some (js "1. " ++ formatSoftBreak children ++ js "\n"), tableHeader)
      | some "todo-list" =>
          let box := if data.checked = some true then js "[x]" else js "[ ]"
          (some (box ++ js " " ++ formatSoftBreak children ++ js "\n"),
            tableHeader)
      | _ =>
          (some (js "* " ++ formatSoftBreak children ++ js "\n"), tableHeader)
  | "heading1" => (some (js "# " ++ formatSoftBreak children), tableHeader)
  | "heading2" => (some (js "## " ++ children), tableHeader)
  | "heading3" => (some (js "### " ++ children), tableHeader)
  | "heading4" => (some (js "#### " ++ children), tableHeader)
  | "heading5" => (some (js "##### " ++ children), tableHeader)
  | "heading6" => (some (js "###### " ++ children), tableHeader)
  | "horizontal-rule" => (some (js "---\n"), tableHeader)
  | "image" =>
      let alt := jsToString data.alt
      let src := enc (data.src.getD [])
      (some (js "![" ++ alt ++ js "](" ++ src ++ js ")\n"), tableHeader)
  | "linkbar" =>
      let img := enc (data.image.getD [])
      let url := enc (data.url.getD [])
      (some (formatLinkBar img url (jsToString data.title)
        (jsToString data.description) (jsToString data.domain)), tableHeader)
  | _ => (none, tableHeader)

/-- Method `serializeString` (renderer.js lines 272-278): only the plain-text
rule matches, and its result is subject to the falsy check, so an empty
escaped text falls through to `undefined`. -/
def serializeString (text : JSStr) : Option JSStr :=
  truthyResult (some (escapeText text))

/-- Method `serializeLeaves` (renderer.js lines 252-263): escape the leaf text,
then fold the leaf's marks over it; an unmatched mark leaves the reduce
callback without a `return`, making the accumulator `undefined`. -/
def serializeLeaves (leaf : Leaf) : Option JSStr :=
  leaf.marks.foldl
    (fun children mark => truthyResult (markRuleSerialize mark children))
    (serializeString leaf.text)

mutual

/-- Method `serializeNode` (renderer.js lines 227-243).  A text node maps its
leaves; any other node first renders its children (post-order, threading
the table-header state left to right), joins them, and then dispatches
on the rules: for a `block` only `RULES[1]` can match, for an `inline`
only `RULES[2]`, each behind the falsy check.  The JS return value is a
list of leaf results for a text node and a single (possibly
`undefined`) string otherwise; both are modelled as the flatten-ready
list the caller builds. -/
def serializeNode (enc : JSStr → JSStr) (node : SNode) (parent : Parent)
    (th : JSStr) : List (Option JSStr) × JSStr :=
  match node with
  | .text leaves => (leaves.map serializeLeaves, th)
  | .block ty data nodes =>
      let res := serializeChildren enc nodes (.node (.block ty data nodes)) th
      let br := blockRuleSerialize enc ty data parent (joinResults res.1) res.2
      ([truthyResult br.1], br.2)
  | .inline ty data nodes =>
      let res := serializeChildren enc nodes (.node (.inline ty data nodes)) th
      ([truthyResult (inlineRuleSerialize enc ty data (joinResults res.1))],
        res.2)

/-- The map `node.nodes.map(node => this.serializeNode(node, document))` plus
`flatten()`: children are rendered in order, each with this node as its
parent, the table-header state threaded through. -/
def serializeChildren (enc : JSStr → JSStr) (nodes : SNodeList)
    (parent : Parent) (th : JSStr) : List (Option JSStr) × JSStr :=
  match nodes with
  | .nil => ([], th)
  | .cons n rest =>
      let r := serializeNode enc n parent th
      let r2 := serializeChildren enc rest parent r.2
      (r.1 ++ r2.1, r2.2)

end

/-- The top-level map in `serialize` (renderer.js lines 210-212): each
top-level node is rendered with the document as its parent and joined to
one string per node (`undefined` joining as the empty string). -/
def serializeDocNodes (enc : JSStr → JSStr) (nodes : SNodeList) (th : JSStr) :
    List JSStr × JSStr :=
  match nodes with
  | .nil => ([], th)
  | .cons n rest =>
      let r := serializeNode enc n .document th
      let r2 := serializeDocNodes enc rest r.2
      (joinResults r.1 :: r2.1, r2.2)

/-- Method `serialize` (renderer.js lines 208-218): render every top-level
node, join the results with a newline, and strip leading whitespace.
`th` is the value of the module-level `tableHeader` when the call
starts (`""` for a fresh module). -/
def serialize (enc : JSStr → JSStr) (docNodes : SNodeList) (th : JSStr) :
    JSStr :=
  jsTrimStart (List.intercalate (js "\n") (serializeDocNodes enc docNodes th).1)

/-- The characters the spec says are escaped: `\ @ ! [ ] %`. -/
def isEscapedChar (c : Char) : Bool :=
  c = '\\' || c = '@' || c = '!' || c = '[' || c = ']' || c = '%'

/-- Modelled from the spec: per-character escaping — a backslash is
prefixed to exactly the escaped characters, every other character is
left unchanged. -/
def escapeCharSpec (c : Char) : JSStr :=
  if isEscapedChar c then ['\\', c] else [c]

/-- Modelled from the spec: the whole-text per-character escaping. -/
def escapeSpec : JSStr → JSStr
  | [] => []
  | c :: s => escapeCharSpec c ++ escapeSpec s

/-- Modelled from the spec: removing one backslash before each escaped
character (the conceptual Markdown unescape of the round-trip
property). -/
def removeEscapes : JSStr → JSStr
  | [] => []
  | [x] => [x]
  | x :: y :: rest =>
      if x = '\\' && isEscapedChar y then y :: removeEscapes rest
      else x :: removeEscapes (y :: rest)

/-- Modelled from the spec: the lines of a text, split at newlines (a
trailing newline yields a final empty line). -/
def linesOf : JSStr → List JSStr
  | [] => [[]]
  | x :: xs =>
      if x = '\n' then [] :: linesOf xs
      else
        match linesOf xs with
        | [] => [[x]]
        | l :: ls => (x :: l) :: ls

/-- Modelled from the spec: join lines with a separator. -/
def joinLinesWith (sep : JSStr) : List JSStr → JSStr
  | [] => []
  | [l] => l
  | l :: l2 :: ls => l ++ sep ++ joinLinesWith sep (l2 :: ls)

/-- Modelled from the spec: "three spaces prepended to every line". -/
def indentEveryLine (s : JSStr) : JSStr :=
  joinLinesWith (js "\n") ((linesOf s).map (fun l => js "   " ++ l))

/-- A text node holding one unmarked leaf. -/
def textOf (s : String) : SNode := SNode.text [⟨js s, []⟩]

/-- The table of the spec's table-rendering example: one head row of two
cells aligned left and right, one data row of two cells. -/
def tableC2 : SNode :=
  .block "table" {} (.ofList [
    .block "table-row" {} (.ofList [
      .block "table-head" { align := some "left" } (.ofList [textOf "col1"]),
      .block "table-head" { align := some "right" } (.ofList [textOf "col2"])]),
    .block "table-row" {} (.ofList [
      .block "table-cell" {} (.ofList [textOf "a"]),
      .block "table-cell" {} (.ofList [textOf "b"])])])

/-- A plain one-row, one-cell table. -/
def innerTableC1 : SNode :=
  .block "table" {} (.ofList [
    .block "table-row" {} (.ofList [
      .block "table-cell" {} (.ofList [textOf "i"])])])

/-- An outer table whose header row has a left-aligned head cell and
then a right-aligned head cell that contains `innerTableC1`. -/
def tableC1 : SNode :=
  .block "table" {} (.ofList [
    .block "table-row" {} (.ofList [
      .block "table-head" { align := some "left" } (.ofList [textOf "x"]),
      .block "table-head" { align := some "right" }
        (.ofList [innerTableC1])])])

/-- A document holding a single paragraph whose only leaf has empty text
and a bold mark. -/
def docC3 : SNodeList :=
  .ofList [.block "paragraph" {} (.ofList [SNode.text [⟨[], ["bold"]⟩]])]

/-- A document holding a single paragraph with the text leaf hello. -/
def docHello : SNodeList :=
  .ofList [.block "paragraph" {} (.ofList [textOf "hello"])]

theorem jsReplaceChar_append (c : Char) (rep a b : JSStr) :
    jsReplaceChar c rep (a ++ b) =
      jsReplaceChar c rep a ++ jsReplaceChar c rep b := by
  induction a with
  | nil => simp [jsReplaceChar]
  | cons x xs ih => simp [jsReplaceChar, ih]

theorem escapeText_append (a b : JSStr) :
    escapeText (a ++ b) = escapeText a ++ escapeText b := by
  simp [escapeText, jsReplaceChar_append]

theorem escapeText_single (x : Char) : escapeText [x] = escapeCharSpec x := by
  by_cases h1 : x = '\\'
  · subst h1; decide
  by_cases h2 : x = '@'
  · subst h2; decide
  by_cases h3 : x = '!'
  · subst h3; decide
  by_cases h4 : x = '['
  · subst h4; decide
  by_cases h5 : x = ']'
  · subst h5; decide
  by_cases h6 : x = '%'
  · subst h6; decide
  simp [escapeText, jsReplaceChar, escapeCharSpec, isEscapedChar,
    h1, h2, h3, h4, h5, h6]

theorem escapeText_eq_escapeSpec (s : JSStr) : escapeText s = escapeSpec s := by
  induction s with
  | nil => decide
  | cons x xs ih =>
      have : x :: xs = [x] ++ xs := rfl
      rw [this, escapeText_append, escapeText_single, ih]
      rfl

theorem escapeSpec_ne_nil (x : Char) (s : JSStr) : escapeSpec (x :: s) ≠ [] := by
  cases h : isEscapedChar x <;> simp [escapeSpec, escapeCharSpec, h]

theorem escapeSpec_eq_nil (s : JSStr) (h : escapeSpec s = []) : s = [] := by
  cases s with
  | nil => rfl
  | cons x xs => exact absurd h (escapeSpec_ne_nil x xs)

theorem removeEscapes_escapeSpec (s : JSStr) :
    removeEscapes (escapeSpec s) = s := by
  induction s with
  | nil => rfl
  | cons x xs ih =>
      by_cases hx : isEscapedChar x = true
      · have : escapeSpec (x :: xs) = '\\' :: x :: escapeSpec xs := by
          simp [escapeSpec, escapeCharSpec, hx]
        rw [this, removeEscapes, if_pos (by simp [hx]), ih]
      · have hesc : escapeSpec (x :: xs) = x :: escapeSpec xs := by
          simp [escapeSpec, escapeCharSpec, hx]
        rw [hesc]
        cases h2 : escapeSpec xs with
        | nil =>
            rw [escapeSpec_eq_nil xs h2]
            rfl
        | cons y ys =>
            have hxslash : x ≠ '\\' := by
              intro hcon
              rw [hcon] at hx
              exact hx (by decide)
            rw [removeEscapes, if_neg (by simp [hxslash]), ← h2, ih]

theorem linesOf_ne_nil (s : JSStr) : linesOf s ≠ [] := by
  cases s with
  | nil => simp [linesOf]
  | cons x xs =>
      simp only [linesOf]
      split
      · simp
      · split <;> simp

theorem jsIndentLineStarts_eq_indentEveryLine (s : JSStr) :
    jsIndentLineStarts s = indentEveryLine s := by
  induction s with
  | nil => decide
  | cons x xs ih =>
      obtain ⟨l, ls, hls⟩ :=
        List.exists_cons_of_ne_nil (linesOf_ne_nil xs)
      rw [indentEveryLine, hls] at ih
      by_cases hx : x = '\n'
      · subst hx
        rw [jsIndentLineStarts, indentNewlines, if_pos rfl, indentEveryLine,
          linesOf, if_pos rfl, hls, List.map_cons, List.map_cons,
          joinLinesWith, ← List.map_cons, ← ih, jsIndentLineStarts]
        have hnl : (js "\n" : JSStr) = ['\n'] := rfl
        rw [hnl]
        simp
      · rw [jsIndentLineStarts, indentNewlines, if_neg hx, indentEveryLine,
          linesOf, if_neg hx, hls, List.map_cons]
        cases ls with
        | nil =>
            rw [List.map_cons, List.map_nil, joinLinesWith] at ih
            rw [List.map_nil, joinLinesWith]
            have hl : indentNewlines xs = l := by
              rw [jsIndentLineStarts] at ih
              exact List.append_cancel_left ih
            rw [hl]
        | cons l2 ls2 =>
            rw [List.map_cons, List.map_cons] at ih
            rw [List.map_cons]
            rw [joinLinesWith] at ih ⊢
            rw [jsIndentLineStarts] at ih
            have hmid : js "   " ++ indentNewlines xs =
                js "   " ++ (l ++ js "\n" ++ joinLinesWith (js "\n")
                  ((js "   " ++ l2) :: List.map (fun t => js "   " ++ t) ls2)) := by
              rw [ih]
              simp [List.append_assoc]
            have : indentNewlines xs =
                l ++ js "\n" ++ joinLinesWith (js "\n")
                  ((js "   " ++ l2) :: List.map (fun t => js "   " ++ t) ls2) :=
              List.append_cancel_left hmid
            rw [this]
            simp [List.append_assoc]

/-- Claim C6: a todo-list, bulleted-list, or ordered-list block whose
parent is the document renders as a leading newline followed by its
children unchanged; nested anywhere below the top level it renders as a
leading newline followed by the children with three spaces prepended to
every line of the children's text (`jsIndentLineStarts`, proved equal to
the line-by-line `indentEveryLine`). -/
theorem c6_list_indentation (enc : JSStr → JSStr) (d : NData) (b : SNode)
    (ch th : JSStr) (ty : String)
    (h : ty = "todo-list" ∨ ty = "bulleted-list" ∨ ty = "ordered-list") :
    blockRuleSerialize enc ty d Parent.document ch th =
      (some (js "\n" ++ ch), th) ∧
    blockRuleSerialize enc ty d (.node b) ch th =
      (some (js "\n" ++ jsIndentLineStarts ch), th) ∧
    jsIndentLineStarts ch = indentEveryLine ch := by
  obtain rfl | rfl | rfl := h <;>
    exact ⟨rfl, rfl, jsIndentLineStarts_eq_indentEveryLine ch⟩

/-- Witness for C6 at a concrete list type, parent and children. -/
theorem c6_list_indentation_witness :
    ("todo-list" = "todo-list" ∨ "todo-list" = "bulleted-list" ∨
      "todo-list" = "ordered-list") ∧
    blockRuleSerialize id "todo-list" {} Parent.document (js "[x] a\n") [] =
      (some (js "\n" ++ js "[x] a\n"), []) :=
  ⟨Or.inl rfl,
    (c6_list_indentation id {} (textOf "q") (js "[x] a\n") [] "todo-list"
      (Or.inl rfl)).1⟩

/-- Claim C7: heading1 renders as one hash, a space, and the soft-broken
children; heading2 through heading6 render as the hashes, a space, and
the children passed through unchanged (no soft-break). -/
theorem c7_heading_softbreak (enc : JSStr → JSStr) (d : NData) (p : Parent)
    (ch th : JSStr) :
    blockRuleSerialize enc "heading1" d p ch th =
      (some (js "# " ++ formatSoftBreak ch), th) ∧
    blockRuleSerialize enc "heading2" d p ch th =
      (some (js "## " ++ ch), th) ∧
    blockRuleSerialize enc "heading3" d p ch th =
      (some (js "### " ++ ch), th) ∧
    blockRuleSerialize enc "heading4" d p ch th =
      (some (js "#### " ++ ch), th) ∧
    blockRuleSerialize enc "heading5" d p ch th =
      (some (js "##### " ++ ch), th) ∧
    blockRuleSerialize enc "heading6" d p ch th =
      (some (js "###### " ++ ch), th) ∧
    formatSoftBreak ch = jsReplaceChar '\n' (js "  \n") ch :=
  ⟨rfl, rfl, rfl, rfl, rfl, rfl, rfl⟩

/-- Claim C8: the escaping of plain-text runs equals the per-character
spec (backslash before exactly `\ @ ! [ ] %`, everything else
unchanged), and removing one backslash before each escaped character
restores the original text. -/
theorem c8_escape_roundtrip :
    (∀ s : JSStr, escapeText s = escapeSpec s) ∧
    ∀ s : JSStr, removeEscapes (escapeText s) = s :=
  ⟨escapeText_eq_escapeSpec, fun s => by
    rw [escapeText_eq_escapeSpec]
    exact removeEscapes_escapeSpec s⟩

/-- Claim C9: `serialize` joins the per-top-level-node results with a
single newline and strips whitespace only from the leading end (the
stripped prefix is exactly the leading whitespace run, so trailing
whitespace survives); a document holding one paragraph with text leaf
hello serializes to exactly hello plus a newline. -/
theorem c9_serialize_top (enc : JSStr → JSStr) (docNodes : SNodeList)
    (th s : JSStr) :
    serialize enc docNodes th =
      jsTrimStart (List.intercalate (js "\n")
        (serializeDocNodes enc docNodes th).1) ∧
    s.takeWhile isJsWhitespace ++ jsTrimStart s = s ∧
    serialize id docHello [] = js "hello\n" :=
  ⟨rfl, List.takeWhile_append_dropWhile isJsWhitespace s, by decide⟩

/-- Claim C10: an image block whose data lacks an `alt` field renders
with the literal text undefined in the alt position; the `src` field
(and only it) defaults to the empty string and is then encoded. -/
theorem c10_image_alt (enc : JSStr → JSStr) (d : NData) (p : Parent)
    (ch th : JSStr) (h : d.alt = none) :
    blockRuleSerialize enc "image" d p ch th =
      (some (js "![" ++ js "undefined" ++ js "](" ++ enc (d.src.getD []) ++
        js ")\n"), th) ∧
    js "![" ++ (js "undefined" ++ js "](") = js "![undefined](" := by
  constructor
  · have halt : jsToString d.alt = js "undefined" := by rw [h]; rfl
    simp [blockRuleSerialize, halt]
  · decide

/-- Witness for C10 at a concrete image node with no alt and a concrete
src. -/
theorem c10_image_alt_witness :
    ({ alt := none, src := some (js "x") } : NData).alt = none ∧
    blockRuleSerialize id "image" { alt := none, src := some (js "x") }
        Parent.document [] [] =
      (some (js "![" ++ js "undefined" ++ js "](" ++ js "x" ++ js ")\n"),
        []) :=
  ⟨rfl,
    (c10_image_alt id { alt := none, src := some (js "x") } Parent.document
      [] [] rfl).1⟩

/-- Claim C1 is false as stated: the pending table-header state is not
reset at table entry.  In `tableC1` the outer table's left-alignment
marker, pending when the nested `innerTableC1` starts, is consumed by
the inner table's row (the separator `|:--- |` appears inside the inner
table's output and is missing from the outer separator `| ---:|`), and
rendering a table is not independent of the state pending at its
entry. -/
theorem c1_counterexample :
    serialize id (.ofList [tableC1]) [] =
      js "| x | | i |\n|:--- |\n |\n| ---:|\n" ∧
    (serializeNode id innerTableC1 Parent.document (js "|:--- ")).1 ≠
      (serializeNode id innerTableC1 Parent.document []).1 :=
  ⟨by decide, by decide⟩

/-- Claim C1 amended: the state is reset to empty when the table rule
fires, i.e. after the table's children have been rendered (table exit),
and a table-row consumes whatever markers are pending at that moment
(emitting them terminated by a pipe and newline) and always leaves the
state empty; so markers never survive a completed table, but markers
pending at a table's entry are consumed by that table's first row. -/
theorem c1_table_state (enc : JSStr → JSStr) (d : NData) (ns : SNodeList)
    (p : Parent) (ch th : JSStr) :
    (serializeNode enc (.block "table" d ns) p th).2 = [] ∧
    (serializeNode enc (.block "table-row" d ns) p th).2 = [] ∧
    blockRuleSerialize enc "table-row" d p ch th =
      (some (ch ++ js "|\n" ++ (if th = [] then [] else th ++ js "|\n")),
        []) := by
  refine ⟨?_, ?_, rfl⟩ <;> simp [serializeNode, blockRuleSerialize]

/-- Claim C2: a table-head cell appends exactly one alignment marker to
the pending-header state and renders as the pipe-wrapped cell; a
table-row renders its cells followed by a pipe and newline, then the
pending state (pipe-terminated) if non-empty, clearing the state; the
spec's concrete two-column table renders exactly as stated. -/
theorem c2_table_rendering (enc : JSStr → JSStr) (d : NData) (p : Parent)
    (ch th : JSStr) (al : Option String)
    (h : al ≠ some "left" ∧ al ≠ some "center" ∧ al ≠ some "right") :
    blockRuleSerialize enc "table-head" { d with align := some "left" } p ch
        th = (some (js "| " ++ ch ++ js " "), th ++ js "|:--- ") ∧
    blockRuleSerialize enc "table-head" { d with align := some "center" } p ch
        th = (some (js "| " ++ ch ++ js " "), th ++ js "|:---:") ∧
    blockRuleSerialize enc "table-head" { d with align := some "right" } p ch
        th = (some (js "| " ++ ch ++ js " "), th ++ js "| ---:") ∧
    blockRuleSerialize enc "table-head" { d with align := al } p ch th =
      (some (js "| " ++ ch ++ js " "), th ++ js "| --- ") ∧
    blockRuleSerialize enc "table-row" d p ch th =
      (some (ch ++ js "|\n" ++ (if th = [] then [] else th ++ js "|\n")),
        []) ∧
    serialize id (.ofList [tableC2]) [] =
      js "| col1 | col2 |\n|:--- | ---:|\n| a | b |\n" := by
  refine ⟨rfl, rfl, rfl, ?_, rfl, by decide⟩
  rcases al with _ | s
  · rfl
  · have h1 : s ≠ "left" := fun hs => h.1 (by rw [hs])
    have h2 : s ≠ "center" := fun hs => h.2.1 (by rw [hs])
    have h3 : s ≠ "right" := fun hs => h.2.2 (by rw [hs])
    simp only [blockRuleSerialize]
    split
    · next heq => exact absurd (Option.some.inj heq) h1
    · next heq => exact absurd (Option.some.inj heq) h2
    · next heq => exact absurd (Option.some.inj heq) h3
    · rfl

/-- Witness for C2 at a concrete alignment outside left, center, right
(absent alignment) and concrete children and state. -/
theorem c2_table_rendering_witness :
    ((none : Option String) ≠ some "left" ∧
      (none : Option String) ≠ some "center" ∧
      (none : Option String) ≠ some "right") ∧
    blockRuleSerialize id "table-head" { align := none } Parent.document
        (js "c") (js "|:--- ") =
      (some (js "| " ++ js "c" ++ js " "), js "|:--- " ++ js "| --- ") :=
  ⟨by decide,
    (c2_table_rendering id {} Parent.document (js "c") (js "|:--- ") none
      (by decide)).2.2.2.1⟩

/-- Claim C3 is false as stated: a text leaf with empty text and a bold
mark does contribute the literal text undefined to the output.  The
escaped empty text is the falsy empty string, so the string rule falls
through and the leaf accumulator starts as JS `undefined`, which the
bold rule interpolates. -/
theorem c3_counterexample :
    serialize id docC3 [] = js "**undefined**\n" ∧
    serialize id docC3 [] ≠ [] :=
  ⟨by decide, by decide⟩

/-- Claim C3 amended: a node for which no rule returns a non-empty
result contributes `undefined` to its parent's result list, and the
children join turns such entries into the empty string, so unrecognized
node types silently produce nothing; the exception is mark folding,
where an `undefined` accumulator (from a leaf whose escaped text is
empty, or from an unrecognized mark) is interpolated by a subsequent
recognized mark as the literal text undefined. -/
theorem c3_amended (enc : JSStr → JSStr) (p : Parent) (th : JSStr)
    (r : List (Option JSStr)) :
    serializeNode enc (.block "figure" {} .nil) p th = ([none], th) ∧
    joinResults (none :: r) = joinResults r ∧
    serializeLeaves ⟨[], ["bold"]⟩ = some (js "**undefined**") := by
  refine ⟨?_, ?_, by decide⟩
  · simp [serializeNode, serializeChildren, blockRuleSerialize, joinResults,
      truthyResult]
  · simp [joinResults]

/-- Claim C4 is false as stated at the empty leaf text: the escaped
empty text is falsy, the accumulator starts as `undefined`, and the
leaf with marks bold then italic renders as the nested wrapping of the
literal text undefined rather than of the escaped (empty) text. -/
theorem c4_counterexample :
    serializeLeaves ⟨[], ["bold", "italic"]⟩ =
      some (js "***undefined***") ∧
    serializeLeaves ⟨[], ["bold", "italic"]⟩ ≠
      some (js "*" ++ (js "**" ++ escapeText [] ++ js "**") ++ js "*") :=
  ⟨by decide, by decide⟩

/-- Claim C4 amended: for every leaf with non-empty text and stored
marks bold then italic, the marks fold in stored order over the escaped
text, the outermost-last mark producing the outermost syntax. -/
theorem c4_amended (t : JSStr) (h : t ≠ []) :
    serializeLeaves ⟨t, ["bold", "italic"]⟩ =
      some (js "*" ++ (js "**" ++ escapeText t ++ js "**") ++ js "*") := by
  have hne : escapeText t ≠ [] := by
    obtain ⟨x, xs, rfl⟩ := List.exists_cons_of_ne_nil h
    rw [escapeText_eq_escapeSpec]
    exact escapeSpec_ne_nil x xs
  have hstar : (js "**" : JSStr) ≠ [] := by decide
  simp [serializeLeaves, serializeString, truthyResult, markRuleSerialize,
    jsToString, hne, List.append_eq_nil, hstar]

/-- Witness for C4 at a concrete non-empty leaf text. -/
theorem c4_amended_witness :
    js "hi" ≠ ([] : JSStr) ∧
    serializeLeaves ⟨js "hi", ["bold", "italic"]⟩ =
      some (js "*" ++ (js "**" ++ escapeText (js "hi") ++ js "**") ++
        js "*") :=
  ⟨by decide, c4_amended (js "hi") (by decide)⟩

/-- Claim C5: the list-item marker is chosen from the immediate parent's
type — ordered-list parent gives the literal marker 1., todo-list
parent gives a checkbox from the item's own checked field, any other
parent (bulleted-list, the document, or anything else) gives an
asterisk; soft-break formatting is applied to the children, and the
item is terminated by a newline. -/
theorem c5_list_item_marker (enc : JSStr → JSStr) (d dp : NData)
    (ns : SNodeList) (p : Parent) (ch th : JSStr)
    (h : Parent.type p ≠ some "ordered-list" ∧
      Parent.type p ≠ some "todo-list") :
    blockRuleSerialize enc "list-item" d
        (.node (.block "ordered-list" dp ns)) ch th =
      (some (js "1. " ++ formatSoftBreak ch ++ js "\n"), th) ∧
    blockRuleSerialize enc "list-item" d
        (.node (.block "todo-list" dp ns)) ch th =
      (some ((if d.checked = some true then js "[x]" else js "[ ]") ++
        js " " ++ formatSoftBreak ch ++ js "\n"), th) ∧
    blockRuleSerialize enc "list-item" d p ch th =
      (some (js "* " ++ formatSoftBreak ch ++ js "\n"), th) := by
  refine ⟨rfl, rfl, ?_⟩
  simp only [blockRuleSerialize]
  split
  · next heq => exact absurd heq h.1
  · next heq => exact absurd heq h.2
  · rfl

/-- Witness for C5 at the document as parent (neither an ordered-list
nor a todo-list). -/
theorem c5_list_item_marker_witness :
    (Parent.type Parent.document ≠ some "ordered-list" ∧
      Parent.type Parent.document ≠ some "todo-list") ∧
    blockRuleSerialize id "list-item" {} Parent.document (js "a") [] =
      (some (js "* " ++ formatSoftBreak (js "a") ++ js "\n"), []) :=
  ⟨by decide,
    (c5_list_item_marker id {} {} .nil Parent.document (js "a") []
      (by decide)).2.2⟩
